import Mathlib

/-!
Verification of the Redaction_Machine core (src/app.py).

The program is a PII-redaction pipeline: a `Redactor` analyzes a text for
sensitive spans, anonymizes it (delegating the actual span-sorting /
overlap-resolution / replacement pass to the external presidio
`AnonymizerEngine`, which is not part of this repository's source), renders a
bold-markup preview via `Redactor.bold_redacted_items`, and `main` runs the
pipeline over a batch of named texts and aggregates summary statistics.

Texts are modelled as `List Char`; Python slicing `s[a:b]` is
`(l.drop a).take (b - a)`, and Python's stable `sorted` is modelled by
`List.insertionSort` (also stable, so it yields the identical output for the
same key relation).
-/

namespace Redaction

/-- A detected entity span (spec §3 `Span`): half-open character offsets into
the original text plus a category label.  The optional floating-point
confidence `score` is omitted as no operation verified here reads it.
`end` is a Lean keyword, so the field is named `stop`. -/
structure Span where
  start : Nat
  stop : Nat
  entity_type : String
deriving DecidableEq

/-- An applied redaction record (spec §3 `AnonymizedItem`): offsets are in the
anonymized text's own coordinate system.  Also used as the element type of the
`items` lists fed to `Redactor.bold_redacted_items` (a Python dict with
`start` / `end` / `entity_type` keys). -/
structure AnonymizedItem where
  start : Nat
  stop : Nat
  entity_type : String
deriving DecidableEq

/-- The per-text result record (spec §3 `FileResult`): what
`Redactor.anonymize_text` returns after `json.loads`, i.e.
`{"text": ..., "items": [...]}` (src/app.py lines 34 and 40). -/
structure FileResult where
  text : List Char
  items : List AnonymizedItem
deriving DecidableEq

/-- The ASCII characters removed by Python's `str.strip()` with no argument. -/
def isPySpace (c : Char) : Bool :=
  c = ' ' || c = '\t' || c = '\n' || c = '\r' || c = '\x0b' || c = '\x0c'

/-- Python `text.strip()`: remove leading and trailing whitespace. -/
def pyStrip (l : List Char) : List Char :=
  ((l.dropWhile isPySpace).reverse.dropWhile isPySpace).reverse

/-- Python slice `l[a:b]` for `0 ≤ a`, `0 ≤ b`. -/
def sliceL (l : List Char) (a b : Nat) : List Char :=
  (l.drop a).take (b - a)

/-! ### Spec-modelled anonymizer

`Redactor.anonymize_text` (src/app.py lines 36-40) delegates the whole
replacement pass to presidio's `AnonymizerEngine.anonymize`, which is an
external dependency, not code of this repository.  The definitions below are
therefore modelled from the spec (§4.2): spans are sorted by ascending
`start` with ties broken by descending span length; a span whose range
intersects an already-accepted span's range is dropped (first-accepted-wins);
the accepted spans are applied left-to-right, each span's source text replaced
by a configurable mask (default `<ENTITY_TYPE>`), and each output item carries
offsets in the final redacted text's own coordinate system. -/

/-- Modelled from the spec: the processing order of §4.2 — ascending `start`,
ties broken by descending span length (`stop - start`). -/
def spanBefore (a b : Span) : Prop :=
  a.start < b.start ∨ (a.start = b.start ∧ b.stop - b.start ≤ a.stop - a.start)

instance : DecidableRel spanBefore := fun a b => by
  unfold spanBefore; exact inferInstance

instance : IsTotal Span spanBefore :=
  ⟨fun a b => by unfold spanBefore; omega⟩

instance : IsTrans Span spanBefore :=
  ⟨fun a b c hab hbc => by unfold spanBefore at *; omega⟩

/-- Two half-open ranges `[a.start, a.stop)` and `[b.start, b.stop)`
intersect. -/
def spanOverlap (a b : Span) : Bool :=
  a.start < b.stop && b.start < a.stop

/-- Modelled from the spec: the overlap policy of §4.2 — a span whose range
intersects an already-accepted span's range is dropped (first-accepted-wins
in the processing order). -/
def acceptSpans (spans : List Span) : List Span :=
  spans.foldl (fun acc s => if acc.any (fun t => spanOverlap t s) then acc else acc ++ [s]) []

/-- Modelled from the spec: the replacement pass of §4.2 applied to a sorted,
non-overlapping span list.  `pos` is the current read position in the source
text and `out` the output built so far; each item's offsets are positions in
the final redacted text (`(out ++ seg).length` is where its replacement
begins). -/
def applySpans (cfg : String → List Char) (text : List Char) :
    Nat → List Char → List Span → List Char × List AnonymizedItem
  | pos, out, [] => (out ++ text.drop pos, [])
  | pos, out, s :: rest =>
    let seg := (text.drop pos).take (s.start - pos)
    let repl := cfg s.entity_type
    let r := applySpans cfg text s.stop (out ++ seg ++ repl) rest
    (r.1, ⟨(out ++ seg).length, (out ++ seg).length + repl.length, s.entity_type⟩ :: r.2)

/-- Modelled from the spec: the default replacement policy of §4.2 — replace
with a `<ENTITY_TYPE>` placeholder. -/
def defaultMask (t : String) : List Char :=
  '<' :: t.toList ++ ['>']

/-- Modelled from the spec: §4.2 `anonymize` — sort, resolve overlaps, apply
replacements. -/
def anonymizeSpec (cfg : String → List Char) (text : List Char) (spans : List Span) :
    List Char × List AnonymizedItem :=
  applySpans cfg text 0 [] (acceptSpans (List.insertionSort spanBefore spans))

/-! ### The Redactor methods embedded from src/app.py -/

/-- Method `Redactor.analyze_text` (src/app.py lines 21-29).  The external presidio
`AnalyzerEngine.analyze` call is the oracle parameter `detect`; the guard
`if not self.entities_to_redact or not text.strip(): return []` is the
short-circuit under verification. -/
def analyze_text (entities_to_redact : List String)
    (detect : List Char → List String → List Span) (text : List Char) : List Span :=
  if entities_to_redact.isEmpty || (pyStrip text).isEmpty then []
  else detect text entities_to_redact

/-- Method `Redactor.anonymize_text` (src/app.py lines 31-40): empty analysis results
short-circuit to `{"text": text, "items": []}`; otherwise the external
anonymizer (spec-modelled `anonymizeSpec`) is invoked. -/
def anonymize_text (cfg : String → List Char) (text : List Char)
    (analysis_results : List Span) : FileResult :=
  if analysis_results.isEmpty then ⟨text, []⟩
  else
    let r := anonymizeSpec cfg text analysis_results
    ⟨r.1, r.2⟩

/-- Method `Redactor.process_text` (src/app.py lines 42-45). -/
def process_text (entities_to_redact : List String)
    (detect : List Char → List String → List Span)
    (cfg : String → List Char) (text : List Char) : FileResult :=
  anonymize_text cfg text (analyze_text entities_to_redact detect text)

/-! ### The preview renderer `Redactor.bold_redacted_items` (src/app.py 47-65) -/

/-- One iteration of the splicing loop (src/app.py lines 60-64):
`modified_text[:start] + '**' + modified_text[start:end] + '**' +
modified_text[end:]`. -/
def splice (l : List Char) (s e : Nat) : List Char :=
  l.take s ++ ('*' :: '*' :: (l.drop s).take (e - s)) ++ ('*' :: '*' :: l.drop e)

/-- The key of `sorted(items, key=lambda x: x['start'], reverse=True)`
(src/app.py line 54): later items have smaller-or-equal `start`.  Python's
`sorted` is stable, as is `List.insertionSort`, so the two agree. -/
def itemDesc (a b : AnonymizedItem) : Prop := b.start ≤ a.start

instance : DecidableRel itemDesc := fun a b => by unfold itemDesc; exact inferInstance

instance : IsTotal AnonymizedItem itemDesc := ⟨fun a b => by unfold itemDesc; omega⟩

instance : IsTrans AnonymizedItem itemDesc :=
  ⟨fun a b c hab hbc => by unfold itemDesc at *; omega⟩

/-- Ascending-`start` order on items (the reverse of `itemDesc`), used to
state what the descending splicing loop computes. -/
def itemAsc (a b : AnonymizedItem) : Prop := a.start ≤ b.start

instance : DecidableRel itemAsc := fun a b => by unfold itemAsc; exact inferInstance

instance : IsTotal AnonymizedItem itemAsc := ⟨fun a b => by unfold itemAsc; omega⟩

instance : IsTrans AnonymizedItem itemAsc :=
  ⟨fun a b c hab hbc => by unfold itemAsc at *; omega⟩

/-- Two items' half-open ranges intersect. -/
def itemOverlap (a b : AnonymizedItem) : Bool :=
  a.start < b.stop && b.start < a.stop

/-- Method `Redactor.bold_redacted_items` (src/app.py lines 47-65): return early on an
empty item list, otherwise sort by `start` descending (stably) and splice
`'**'` markers around each item's range in turn. -/
def bold_redacted_items (items : List AnonymizedItem) (text : List Char) : List Char :=
  if items.isEmpty then text
  else (List.insertionSort itemDesc items).foldl (fun m it => splice m it.start it.stop) text

/-- The specification-side rendering: the text with each item's substring
wrapped in `'**'` markers, written as one left-to-right pass over items sorted
by ascending `start`.  `pos` is the read position in the original text. -/
def wrapFrom (text : List Char) : Nat → List AnonymizedItem → List Char
  | pos, [] => text.drop pos
  | pos, it :: rest =>
      sliceL text pos it.start ++
        ('*' :: '*' :: sliceL text it.start it.stop) ++
        ('*' :: '*' :: wrapFrom text it.stop rest)

/-! ### The batch loop and summary of `main` (src/app.py 178-254) -/

/-- The per-text branch of the batch loop (src/app.py lines 183-187): texts
whose `strip()` is empty short-circuit to `{"text": text, "items": []}`;
all others go through `redactor.process_text`. -/
def batchStep (entities_to_redact : List String)
    (detect : List Char → List String → List Span)
    (cfg : String → List Char) (t : List Char) : FileResult :=
  if (pyStrip t).isEmpty then ⟨t, []⟩
  else process_text entities_to_redact detect cfg t

/-- The batch loop of `main` (src/app.py lines 178-189): one `FileResult` per
named text, in input order. -/
def processBatch (entities_to_redact : List String)
    (detect : List Char → List String → List Span)
    (cfg : String → List Char)
    (texts : List (String × List Char)) : List (String × FileResult) :=
  texts.map fun nt => (nt.1, batchStep entities_to_redact detect cfg nt.2)

/-- The batch loop of `main` with a fallible per-text pipeline: the source has
no `try`/`except` around `redactor.process_text` (src/app.py lines 183-189),
so an exception raised while processing one text propagates out of the loop
(modelled as `Except.error`), abandoning the remaining texts. -/
def processBatchE (proc : List Char → Except String FileResult) :
    List (String × List Char) → Except String (List (String × FileResult))
  | [] => .ok []
  | (n, t) :: rest =>
    match (if (pyStrip t).isEmpty then .ok (⟨t, []⟩ : FileResult) else proc t) with
    | .error e => .error e
    | .ok r =>
      match processBatchE proc rest with
      | .error e => .error e
      | .ok rs => .ok ((n, r) :: rs)

/-- Whether a fallible computation ended in an uncaught exception. -/
def isErr {ε α : Type} : Except ε α → Bool
  | .error _ => true
  | .ok _ => false

/-- Method `Redactor.process_text` with a fallible detector: the presidio analyzer
call may raise, and `analyze_text` / `process_text` do not catch
(src/app.py lines 21-45). -/
def process_textE (entities_to_redact : List String)
    (detectE : List Char → List String → Except String (List Span))
    (cfg : String → List Char) (text : List Char) : Except String FileResult :=
  match (if entities_to_redact.isEmpty || (pyStrip text).isEmpty then .ok []
         else detectE text entities_to_redact) with
  | .error e => .error e
  | .ok rs => .ok (anonymize_text cfg text rs)

/-- The file-upload text map construction (src/app.py lines 157-161):
`extract_text_from_file` returns `None` on an extraction failure (it catches
the exception, lines 86-88), and `main` adds a file to `texts` only when the
extracted text is truthy — a failing or empty file is skipped entirely. -/
def buildTexts : List (String × Option (List Char)) → List (String × List Char)
  | [] => []
  | (_, none) :: rest => buildTexts rest
  | (n, some t) :: rest =>
    if t.isEmpty then buildTexts rest else (n, t) :: buildTexts rest

/-- The multi-file total (src/app.py line 230):
`sum(len(results['items']) for results in text_results.values())`. -/
def totalItems (results : List (String × FileResult)) : Nat :=
  (results.map fun r => r.2.items.length).sum

/-- The per-file entity-type set (src/app.py line 253, and line 201 in the
single-file path): `set(item['entity_type'] for item in results['items'])`. -/
def fileEntities (r : FileResult) : Finset String :=
  (r.items.map AnonymizedItem.entity_type).toFinset

/-- The entity-type information the multi-file summary reports (src/app.py
lines 246-254): one set per file, nothing across files. -/
def summaryEntitySets (results : List (String × FileResult)) : List (Finset String) :=
  results.map fun r => fileEntities r.2

/-- The case-sensitive union of `entity_type` across all items of all files
(what spec §4.4 calls the batch's distinct entity types). -/
def allEntities (results : List (String × FileResult)) : Finset String :=
  (((results.map fun r => r.2.items).flatten).map AnonymizedItem.entity_type).toFinset

/-! ### Helper lemmas -/

/-- A whitespace-only text strips to the empty list. -/
theorem pyStrip_isEmpty_of_all {text : List Char} (h : text.all isPySpace = true) :
    (pyStrip text).isEmpty = true := by
  have h1 : text.dropWhile isPySpace = [] :=
    List.dropWhile_eq_nil_iff.mpr (by simpa using List.all_eq_true.mp h)
  simp [pyStrip, h1]

/-- The overlap-dropping fold keeps its accumulator pairwise
non-overlapping. -/
theorem acceptSpans_fold_pairwise :
    ∀ (l acc : List Span),
      acc.Pairwise (fun a b => spanOverlap a b = false) →
      (l.foldl
        (fun acc s => if acc.any (fun t => spanOverlap t s) then acc else acc ++ [s])
        acc).Pairwise (fun a b => spanOverlap a b = false) := by
  intro l
  induction l with
  | nil => intro acc h; exact h
  | cons s l ih =>
    intro acc h
    simp only [List.foldl_cons]
    by_cases hc : acc.any (fun t => spanOverlap t s) = true
    · simpa [hc] using ih acc h
    · have hfalse : acc.any (fun t => spanOverlap t s) = false := by
        simpa using hc
      have hnew : (acc ++ [s]).Pairwise (fun a b => spanOverlap a b = false) := by
        refine List.pairwise_append.mpr ⟨h, List.pairwise_singleton _ _, ?_⟩
        intro a ha b hb
        have hb' : b = s := by simpa using hb
        subst hb'
        have := List.any_eq_false.mp hfalse a ha
        simpa using this
      simpa [hfalse] using ih (acc ++ [s]) hnew

/-- Function `acceptSpans` always returns a pairwise non-overlapping list. -/
theorem acceptSpans_pairwise (spans : List Span) :
    (acceptSpans spans).Pairwise (fun a b => spanOverlap a b = false) :=
  acceptSpans_fold_pairwise spans [] (List.Pairwise.nil)

/-- The replacement pass only ever appends to the output accumulator: the
final redacted text extends `out`. -/
theorem applySpans_fst_extends (cfg : String → List Char) (text : List Char) :
    ∀ (spans : List Span) (pos : Nat) (out : List Char),
      ∃ suffix, (applySpans cfg text pos out spans).1 = out ++ suffix := by
  intro spans
  induction spans with
  | nil => intro pos out; exact ⟨text.drop pos, rfl⟩
  | cons s rest ih =>
    intro pos out
    obtain ⟨suf, hsuf⟩ :=
      ih s.stop (out ++ (text.drop pos).take (s.start - pos) ++ cfg s.entity_type)
    refine ⟨(text.drop pos).take (s.start - pos) ++ cfg s.entity_type ++ suf, ?_⟩
    show (applySpans cfg text s.stop
      (out ++ (text.drop pos).take (s.start - pos) ++ cfg s.entity_type) rest).1 = _
    rw [hsuf]
    simp [List.append_assoc]

/-- Every item the replacement pass emits points, in the final redacted
text's own coordinates, at exactly the replacement inserted for it. -/
theorem applySpans_items_slice (cfg : String → List Char) (text : List Char) :
    ∀ (spans : List Span) (pos : Nat) (out : List Char) (item : AnonymizedItem),
      item ∈ (applySpans cfg text pos out spans).2 →
      sliceL (applySpans cfg text pos out spans).1 item.start item.stop
        = cfg item.entity_type := by
  intro spans
  induction spans with
  | nil => intro pos out item h; simp [applySpans] at h
  | cons s rest ih =>
    intro pos out item h
    have hsplit :
        (applySpans cfg text pos out (s :: rest)).2
          = ⟨(out ++ (text.drop pos).take (s.start - pos)).length,
              (out ++ (text.drop pos).take (s.start - pos)).length
                + (cfg s.entity_type).length, s.entity_type⟩
            :: (applySpans cfg text s.stop
                (out ++ (text.drop pos).take (s.start - pos) ++ cfg s.entity_type) rest).2 := rfl
    have hfst :
        (applySpans cfg text pos out (s :: rest)).1
          = (applySpans cfg text s.stop
              (out ++ (text.drop pos).take (s.start - pos) ++ cfg s.entity_type) rest).1 := rfl
    rw [hsplit] at h
    rcases List.mem_cons.mp h with heq | hmem
    · subst heq
      rw [hfst]
      obtain ⟨suf, hsuf⟩ := applySpans_fst_extends cfg text rest s.stop
        (out ++ (text.drop pos).take (s.start - pos) ++ cfg s.entity_type)
      rw [hsuf]
      unfold sliceL
      rw [List.append_assoc (out ++ (text.drop pos).take (s.start - pos))]
      rw [List.drop_left]
      have hlen : (out ++ (text.drop pos).take (s.start - pos)).length
          + (cfg s.entity_type).length
          - (out ++ (text.drop pos).take (s.start - pos)).length
          = (cfg s.entity_type).length := by omega
      rw [hlen, List.take_left' rfl]
    · rw [hfst]
      exact ih s.stop _ item hmem

/-! ### C1 -/

/-- C1: `anonymize` processes spans sorted by ascending `start` with ties
broken by descending span length (so the result is invariant under
pre-sorting the input by that order, and at a shared `start` the longer span
wins), drops any span whose range intersects an already-accepted span's range
(so the accepted set is always pairwise non-overlapping), and on the
overlapping pair `(0,10,PERSON)`, `(5,20,EMAIL_ADDRESS)` — in either input
order — retains only `(0,10,PERSON)`, producing exactly one
`AnonymizedItem`. -/
theorem c1_sort_and_overlap_policy :
    (∀ (cfg : String → List Char) (text : List Char) (spans : List Span),
        anonymizeSpec cfg text (List.insertionSort spanBefore spans)
          = anonymizeSpec cfg text spans)
    ∧ (∀ spans : List Span,
        (acceptSpans (List.insertionSort spanBefore spans)).Pairwise
          (fun a b => spanOverlap a b = false))
    ∧ (∀ (cfg : String → List Char) (text : List Char),
        (anonymizeSpec cfg text
            [⟨0, 10, "PERSON"⟩, ⟨5, 20, "EMAIL_ADDRESS"⟩]).2.map
            AnonymizedItem.entity_type = ["PERSON"]
        ∧ (anonymizeSpec cfg text
            [⟨5, 20, "EMAIL_ADDRESS"⟩, ⟨0, 10, "PERSON"⟩]).2.map
            AnonymizedItem.entity_type = ["PERSON"]
        ∧ (anonymizeSpec cfg text
            [⟨0, 5, "SHORT"⟩, ⟨0, 10, "LONG"⟩]).2.map
            AnonymizedItem.entity_type = ["LONG"]) := by
  refine ⟨?_, ?_, ?_⟩
  · intro cfg text spans
    unfold anonymizeSpec
    rw [(List.sorted_insertionSort spanBefore spans).insertionSort_eq]
  · intro spans
    exact acceptSpans_pairwise _
  · intro cfg text
    exact ⟨rfl, rfl, rfl⟩

/-! ### C2 -/

/-- C2: every `AnonymizedItem` produced by the anonymizer carries offsets in
the final redacted text's own coordinate system: slicing the redacted text at
`[item.start, item.stop)` yields exactly the replacement value used for the
item's entity type. -/
theorem c2_offsets_in_redacted_text
    (cfg : String → List Char) (text : List Char) (spans : List Span)
    (item : AnonymizedItem) (h : item ∈ (anonymizeSpec cfg text spans).2) :
    sliceL (anonymizeSpec cfg text spans).1 item.start item.stop
      = cfg item.entity_type :=
  applySpans_items_slice cfg text
    (acceptSpans (List.insertionSort spanBefore spans)) 0 [] item h

/-- Witness for C2 on the spec §8 scenario text: the `PERSON` item of the
redacted `"My name is <PERSON> and my phone number is <PHONE_NUMBER>."`
slices back to `<PERSON>`. -/
theorem c2_offsets_in_redacted_text_witness :
    sliceL (anonymizeSpec defaultMask
        "My name is Hisham and my phone number is 555-123-4567.".toList
        [⟨11, 17, "PERSON"⟩, ⟨41, 53, "PHONE_NUMBER"⟩]).1 11 19
      = defaultMask "PERSON" :=
  c2_offsets_in_redacted_text defaultMask
    "My name is Hisham and my phone number is 555-123-4567.".toList
    [⟨11, 17, "PERSON"⟩, ⟨41, 53, "PHONE_NUMBER"⟩]
    ⟨11, 19, "PERSON"⟩ (by decide)

/-! ### C4 -/

/-- C4: with an empty requested-category list, `analyze_text` returns `[]`
for every text and every detector (so the recognizer is observationally never
invoked), and the whole batch result carries empty item lists. -/
theorem c4_empty_categories :
    (∀ (detect : List Char → List String → List Span) (text : List Char),
        analyze_text [] detect text = [])
    ∧ (∀ (detect : List Char → List String → List Span)
        (cfg : String → List Char) (texts : List (String × List Char)),
        processBatch [] detect cfg texts
          = texts.map fun nt => (nt.1, (⟨nt.2, []⟩ : FileResult))) := by
  refine ⟨fun _ _ => rfl, ?_⟩
  intro detect cfg texts
  unfold processBatch
  refine List.map_congr_left ?_
  intro nt _
  unfold batchStep
  by_cases h : (pyStrip nt.2).isEmpty
  · simp [h]
  · simp only [h]
    rfl

/-! ### C7 -/

/-- C7: for an empty or whitespace-only text, `analyze_text` returns `[]`
and the batch loop short-circuits that text to `{text, items: []}`, for
every detector (so the detector is observationally never invoked). -/
theorem c7_blank_text_short_circuit
    (entities_to_redact : List String)
    (detect : List Char → List String → List Span)
    (cfg : String → List Char) (text : List Char)
    (h : text.all isPySpace = true) :
    analyze_text entities_to_redact detect text = []
    ∧ batchStep entities_to_redact detect cfg text = ⟨text, []⟩ := by
  have hs : (pyStrip text).isEmpty = true := pyStrip_isEmpty_of_all h
  constructor
  · unfold analyze_text
    simp [hs]
  · unfold batchStep
    simp [hs]

/-- Witness for C7 at a concrete whitespace-only text, nonempty category
list, and a detector that would return a span if it were consulted. -/
theorem c7_blank_text_short_circuit_witness :
    analyze_text ["PERSON"] (fun _ _ => [⟨0, 1, "PERSON"⟩]) "  ".toList = []
    ∧ batchStep ["PERSON"] (fun _ _ => [⟨0, 1, "PERSON"⟩]) defaultMask "  ".toList
        = ⟨"  ".toList, []⟩ :=
  c7_blank_text_short_circuit ["PERSON"] (fun _ _ => [⟨0, 1, "PERSON"⟩])
    defaultMask "  ".toList (by decide)

/-! ### C8 -/

/-- C8: `anonymize_text` with an empty span list returns `(text, [])`
unchanged, for every text. -/
theorem c8_empty_spans_noop (cfg : String → List Char) (text : List Char) :
    anonymize_text cfg text [] = ⟨text, []⟩ := rfl

/-! ### C3 -/

/-- C3 counterexample: a detection failure on the first text of a two-text
batch propagates out of the embedded batch loop (`main` has no `try`/`except`
around `redactor.process_text`), so the batch aborts with the exception: no
result — and in particular no error marker — is produced for either text,
refuting "the batch-level processing never raises for a single bad text". -/
theorem c3_counterexample_batch_aborts :
    processBatchE
      (process_textE ["PERSON"]
        (fun t _ => if t = ['x'] then .error "DetectionFailure" else .ok [])
        defaultMask)
      [("a", ['x']), ("b", ['o', 'k'])]
      = .error "DetectionFailure" := rfl

/-- C3 amended: a detection/anonymization failure on any non-blank text of
the batch makes the whole embedded batch loop fail (the exception propagates;
no per-text error marker exists), while extraction failures alone are
isolated: a file whose extraction fails is silently excluded from the batch's
text map and processing continues with the remaining files. -/
theorem c3_amended_failure_propagation :
    (∀ (proc : List Char → Except String FileResult)
        (texts : List (String × List Char)),
        (∃ nt ∈ texts, (pyStrip nt.2).isEmpty = false ∧ isErr (proc nt.2) = true) →
        isErr (processBatchE proc texts) = true)
    ∧ (∀ (pre post : List (String × Option (List Char))) (n : String),
        buildTexts (pre ++ (n, none) :: post) = buildTexts (pre ++ post)) := by
  constructor
  · intro proc texts
    induction texts with
    | nil => rintro ⟨nt, hmem, _⟩; simp at hmem
    | cons p rest ih =>
      rintro ⟨nt, hmem, hblank, herr⟩
      obtain ⟨m, t⟩ := p
      rcases List.mem_cons.mp hmem with heq | hmem'
      · subst heq
        simp only [processBatchE, hblank, Bool.false_eq_true, if_false]
        cases hp : proc t with
        | error e => simp [isErr]
        | ok r => rw [hp] at herr; simp [isErr] at herr
      · simp only [processBatchE]
        cases hhead : (if (pyStrip t).isEmpty then Except.ok (⟨t, []⟩ : FileResult) else proc t) with
        | error e => simp [isErr]
        | ok r =>
          have hrest := ih ⟨nt, hmem', hblank, herr⟩
          cases hr : processBatchE proc rest with
          | error e => simp [isErr]
          | ok rs => rw [hr] at hrest; simp [isErr] at hrest
  · intro pre post n
    induction pre with
    | nil => rfl
    | cons p pre ih =>
      obtain ⟨m, o⟩ := p
      cases o with
      | none => simpa [buildTexts] using ih
      | some t => simp [buildTexts, ih]

/-- Witness for the amended C3: a concrete failing text aborts a concrete
batch, and a concrete extraction failure is dropped from the text map. -/
theorem c3_amended_failure_propagation_witness :
    isErr (processBatchE (fun _ => Except.error "DetectionFailure") [("a", ['x'])]) = true
    ∧ buildTexts ([("good", some ['h', 'i'])] ++ ("bad", none) :: [])
        = buildTexts ([("good", some ['h', 'i'])] ++ []) :=
  ⟨c3_amended_failure_propagation.1 (fun _ => Except.error "DetectionFailure")
      [("a", ['x'])] ⟨("a", ['x']), by decide, by decide, by decide⟩,
    c3_amended_failure_propagation.2 [("good", some ['h', 'i'])] [] "bad"⟩

/-! ### C6 -/

/-- C6 counterexample: in a two-file batch with a `PERSON` item in one file
and an `EMAIL_ADDRESS` item in the other, the summary code (src/app.py lines
228-254) reports the per-file sets `{PERSON}` and `{EMAIL_ADDRESS}` and never
computes the cross-file union `{PERSON, EMAIL_ADDRESS}` — no reported
entity-type set equals that union, refuting the claim that the distinct
entity types reported equal the union across all items of all files.  (The
total-items half of the claim does hold: the total is 2.) -/
theorem c6_counterexample_no_cross_file_union :
    totalItems [("a", ⟨[], [⟨0, 8, "PERSON"⟩]⟩), ("b", ⟨[], [⟨0, 15, "EMAIL_ADDRESS"⟩]⟩)] = 2
    ∧ summaryEntitySets
        [("a", ⟨[], [⟨0, 8, "PERSON"⟩]⟩), ("b", ⟨[], [⟨0, 15, "EMAIL_ADDRESS"⟩]⟩)]
        = [{"PERSON"}, {"EMAIL_ADDRESS"}]
    ∧ allEntities
        [("a", ⟨[], [⟨0, 8, "PERSON"⟩]⟩), ("b", ⟨[], [⟨0, 15, "EMAIL_ADDRESS"⟩]⟩)]
        = {"PERSON", "EMAIL_ADDRESS"}
    ∧ allEntities
        [("a", ⟨[], [⟨0, 8, "PERSON"⟩]⟩), ("b", ⟨[], [⟨0, 15, "EMAIL_ADDRESS"⟩]⟩)]
        ∉ summaryEntitySets
        [("a", ⟨[], [⟨0, 8, "PERSON"⟩]⟩), ("b", ⟨[], [⟨0, 15, "EMAIL_ADDRESS"⟩]⟩)] := by
  decide

/-! ### Preview-renderer lemmas -/

/-- Adjacent Python slices concatenate. -/
theorem sliceL_append (l : List Char) {a b c : Nat} (hab : a ≤ b) (hbc : b ≤ c) :
    sliceL l a b ++ sliceL l b c = sliceL l a c := by
  unfold sliceL
  have h1 : c - a = (b - a) + (c - b) := by omega
  rw [h1, List.take_add, List.drop_drop]
  have h2 : a + (b - a) = b := by omega
  rw [h2]

/-- An in-bounds slice has the expected length. -/
theorem length_sliceL (l : List Char) {a b : Nat} (_hab : a ≤ b) (hb : b ≤ l.length) :
    (sliceL l a b).length = b - a := by
  simp [sliceL]
  omega

/-- The rendering from `pos` is the raw slice up to `q` followed by the
rendering from `q`, whenever `q` does not pass any remaining item's start. -/
theorem wrapFrom_split (text : List Char) (rest : List AnonymizedItem) {pos q : Nat}
    (hpq : pos ≤ q) (hq : ∀ r ∈ rest, q ≤ r.start) :
    wrapFrom text pos rest = sliceL text pos q ++ wrapFrom text q rest := by
  cases rest with
  | nil =>
    show text.drop pos = sliceL text pos q ++ text.drop q
    unfold sliceL
    have h1 : text.drop q = (text.drop pos).drop (q - pos) := by
      rw [List.drop_drop]
      have : pos + (q - pos) = q := by omega
      rw [this]
    rw [h1, List.take_append_drop]
  | cons r tl =>
    have hr : q ≤ r.start := hq r (List.mem_cons_self r tl)
    simp only [wrapFrom]
    rw [← sliceL_append text hpq hr]
    simp [List.append_assoc]

/-- A splice at an in-bounds range of `A ++ (B ++ C)` with `A.length = s` and
`B.length = e - s` wraps exactly `B`. -/
theorem splice_of_decomp {A B C : List Char} {s e : Nat} (hse : s ≤ e)
    (hA : A.length = s) (hB : B.length = e - s) :
    splice (A ++ (B ++ C)) s e = A ++ ('*' :: '*' :: B) ++ ('*' :: '*' :: C) := by
  unfold splice
  have h1 : (A ++ (B ++ C)).take s = A := List.take_left' hA
  have h2 : (A ++ (B ++ C)).drop s = B ++ C := List.drop_left' hA
  have h3 : (B ++ C).take (e - s) = B := List.take_left' hB
  have h4 : (A ++ (B ++ C)).drop e = C := by
    have he : e = s + (e - s) := by omega
    rw [he, ← List.drop_drop, h2, List.drop_left' hB]
  rw [h1, h2, h3, h4]

/-- The right-to-left splicing loop over a left-to-right sorted, chained,
in-bounds item list renders the canonical per-item wrapping. -/
theorem foldr_splice_eq_wrapFrom (text : List Char) :
    ∀ items : List AnonymizedItem,
      (∀ it ∈ items, it.start < it.stop ∧ it.stop ≤ text.length) →
      items.Pairwise (fun a b => a.stop ≤ b.start) →
      items.foldr (fun it m => splice m it.start it.stop) text
        = wrapFrom text 0 items := by
  intro items
  induction items with
  | nil =>
    intro _ _
    show text = wrapFrom text 0 []
    simp [wrapFrom]
  | cons it rest ih =>
    intro hb hch
    have hbit := hb it (List.mem_cons_self it rest)
    have hbrest : ∀ r ∈ rest, r.start < r.stop ∧ r.stop ≤ text.length :=
      fun r hr => hb r (List.mem_cons_of_mem it hr)
    have hstops : ∀ r ∈ rest, it.stop ≤ r.start := (List.pairwise_cons.mp hch).1
    have hIH := ih hbrest (List.pairwise_cons.mp hch).2
    show splice (rest.foldr (fun it m => splice m it.start it.stop) text) it.start it.stop
        = wrapFrom text 0 (it :: rest)
    rw [hIH]
    have hstart_le : it.start ≤ text.length := le_of_lt (lt_of_lt_of_le hbit.1 hbit.2)
    have h1 : wrapFrom text 0 rest
        = sliceL text 0 it.start
          ++ (sliceL text it.start it.stop ++ wrapFrom text it.stop rest) := by
      rw [wrapFrom_split text rest (Nat.zero_le it.start)
        (fun r hr => le_trans (le_of_lt hbit.1) (hstops r hr))]
      rw [wrapFrom_split text rest (le_of_lt hbit.1) hstops]
    rw [h1]
    rw [splice_of_decomp (le_of_lt hbit.1)
      (by rw [length_sliceL text (Nat.zero_le _) hstart_le]; omega)
      (length_sliceL text (le_of_lt hbit.1) hbit.2)]
    simp only [wrapFrom]

/-- Two half-open nonempty in-bounds items that do not overlap have distinct
starts; packaged for `Pairwise` transfer. -/
theorem itemOverlap_comm (a b : AnonymizedItem) : itemOverlap a b = itemOverlap b a := by
  unfold itemOverlap
  rw [Bool.and_comm]

/-- The splicing loop of `bold_redacted_items`, on nonempty, in-bounds,
pairwise non-overlapping items, renders the canonical wrapping of the items
taken in ascending-`start` order. -/
theorem bold_eq_wrapFrom (text : List Char) (items : List AnonymizedItem)
    (hb : ∀ it ∈ items, it.start < it.stop ∧ it.stop ≤ text.length)
    (hov : items.Pairwise fun a b => itemOverlap a b = false) :
    bold_redacted_items items text
      = wrapFrom text 0 (List.insertionSort itemAsc items) := by
  by_cases hemp : items.isEmpty = true
  · have : items = [] := List.isEmpty_iff.mp hemp
    subst this
    simp [bold_redacted_items, wrapFrom, List.insertionSort]
  · have hovsymm : ∀ {x y : AnonymizedItem},
        itemOverlap x y = false → itemOverlap y x = false := by
      intro x y h
      rw [itemOverlap_comm]
      exact h
    have hne : items.Pairwise fun a b => a.start ≠ b.start := by
      refine List.Pairwise.imp_of_mem ?_ hov
      intro a b ha hb' hnov
      have ha' := hb a ha
      have hb'' := hb b hb'
      simp [itemOverlap] at hnov
      omega
    -- the ascending-sorted list
    have hApm : List.Perm (List.insertionSort itemAsc items) items :=
      List.perm_insertionSort itemAsc items
    have hbA : ∀ it ∈ List.insertionSort itemAsc items,
        it.start < it.stop ∧ it.stop ≤ text.length :=
      fun it hit => hb it (hApm.mem_iff.mp hit)
    have hovA : (List.insertionSort itemAsc items).Pairwise
        fun a b => itemOverlap a b = false :=
      (List.Perm.pairwise_iff hovsymm hApm).mpr hov
    have hsortA : (List.insertionSort itemAsc items).Pairwise itemAsc :=
      List.sorted_insertionSort itemAsc items
    have hneA : (List.insertionSort itemAsc items).Pairwise
        fun a b => a.start ≠ b.start :=
      (List.Perm.pairwise_iff (fun h => h.symm) hApm).mpr hne
    have hchainA : (List.insertionSort itemAsc items).Pairwise
        fun a b => a.stop ≤ b.start := by
      refine List.Pairwise.imp_of_mem ?_ (hovA.and hsortA)
      intro a b ha hb' h
      obtain ⟨hnov, hasc⟩ := h
      have ha' := hbA a ha
      have hb'' := hbA b hb'
      have hasc' : a.start ≤ b.start := hasc
      simp [itemOverlap] at hnov
      omega
    have hstrictA : (List.insertionSort itemAsc items).Pairwise
        fun a b => a.start < b.start := by
      refine (hsortA.and hneA).imp ?_
      intro a b h
      obtain ⟨h1, h2⟩ := h
      have h1' : a.start ≤ b.start := h1
      omega
    -- the descending-sorted list equals the reverse of the ascending one
    have hDpm : List.Perm (List.insertionSort itemDesc items) items :=
      List.perm_insertionSort itemDesc items
    have hsortD : (List.insertionSort itemDesc items).Pairwise itemDesc :=
      List.sorted_insertionSort itemDesc items
    have hneD : (List.insertionSort itemDesc items).Pairwise
        fun a b => a.start ≠ b.start :=
      (List.Perm.pairwise_iff (fun h => h.symm) hDpm).mpr hne
    have hstrictD : (List.insertionSort itemDesc items).Pairwise
        fun a b => b.start < a.start := by
      refine (hsortD.and hneD).imp ?_
      intro a b h
      obtain ⟨h1, h2⟩ := h
      have h1' : b.start ≤ a.start := h1
      omega
    have hstrictArev : (List.insertionSort itemAsc items).reverse.Pairwise
        fun a b => b.start < a.start :=
      List.pairwise_reverse.mpr hstrictA
    have hpermDrev : List.Perm (List.insertionSort itemDesc items)
        ((List.insertionSort itemAsc items).reverse) :=
      hDpm.trans (hApm.symm.trans (List.reverse_perm _).symm)
    haveI : IsAntisymm AnonymizedItem (fun a b => b.start < a.start) :=
      ⟨fun a b h1 h2 => absurd h1 (by omega)⟩
    have hDrev : List.insertionSort itemDesc items
        = (List.insertionSort itemAsc items).reverse :=
      List.eq_of_perm_of_sorted hpermDrev hstrictD hstrictArev
    show (if items.isEmpty = true then text
      else (List.insertionSort itemDesc items).foldl
        (fun m it => splice m it.start it.stop) text) = _
    rw [if_neg hemp, hDrev, List.foldl_reverse]
    exact foldr_splice_eq_wrapFrom text _ hbA hchainA

/-- On pairwise non-overlapping nonempty item lists, the starts are distinct,
so stably sorting any permutation of the list by ascending `start` yields the
same list. -/
theorem insertionSortAsc_eq_of_perm (items items' : List AnonymizedItem)
    (hperm : List.Perm items' items)
    (hne : items.Pairwise fun a b => a.start ≠ b.start) :
    List.insertionSort itemAsc items' = List.insertionSort itemAsc items := by
  haveI : IsAntisymm AnonymizedItem (fun a b : AnonymizedItem => a.start < b.start) :=
    ⟨fun a b h1 h2 => absurd h1 (by omega)⟩
  have hp : List.Perm (List.insertionSort itemAsc items') (List.insertionSort itemAsc items) :=
    (List.perm_insertionSort _ _).trans (hperm.trans (List.perm_insertionSort _ _).symm)
  have hne' : items'.Pairwise fun a b => a.start ≠ b.start :=
    (List.Perm.pairwise_iff (fun h => h.symm) hperm).mpr hne
  have strict : ∀ l : List AnonymizedItem,
      (l.Pairwise fun a b => a.start ≠ b.start) →
      (List.insertionSort itemAsc l).Pairwise fun a b => a.start < b.start := by
    intro l hl
    have hsort : (List.insertionSort itemAsc l).Pairwise itemAsc :=
      List.sorted_insertionSort itemAsc l
    have hnel : (List.insertionSort itemAsc l).Pairwise fun a b => a.start ≠ b.start :=
      (List.Perm.pairwise_iff (fun h => h.symm) (List.perm_insertionSort itemAsc l)).mpr hl
    refine (hsort.and hnel).imp ?_
    intro a b h
    obtain ⟨h1, h2⟩ := h
    have h1' : a.start ≤ b.start := h1
    omega
  exact List.eq_of_perm_of_sorted hp (strict items' hne') (strict items hne)

/-- Renders are independent of input item order on in-bounds, nonempty,
pairwise non-overlapping item lists: any permutation splices to the same
result. -/
theorem bold_eq_of_perm (text : List Char) (items items' : List AnonymizedItem)
    (hperm : List.Perm items' items)
    (hb : ∀ it ∈ items, it.start < it.stop ∧ it.stop ≤ text.length)
    (hov : items.Pairwise fun a b => itemOverlap a b = false) :
    bold_redacted_items items' text = bold_redacted_items items text := by
  have hovsymm : ∀ {x y : AnonymizedItem},
      itemOverlap x y = false → itemOverlap y x = false := by
    intro x y h
    rw [itemOverlap_comm]
    exact h
  have hb' : ∀ it ∈ items', it.start < it.stop ∧ it.stop ≤ text.length :=
    fun it hit => hb it (hperm.mem_iff.mp hit)
  have hov' : items'.Pairwise fun a b => itemOverlap a b = false :=
    (List.Perm.pairwise_iff hovsymm hperm).mpr hov
  have hne : items.Pairwise fun a b => a.start ≠ b.start := by
    refine List.Pairwise.imp_of_mem ?_ hov
    intro a b ha hb'' hnov
    have h1 := hb a ha
    have h2 := hb b hb''
    simp [itemOverlap] at hnov
    omega
  rw [bold_eq_wrapFrom text items hb hov, bold_eq_wrapFrom text items' hb' hov',
    insertionSortAsc_eq_of_perm items items' hperm hne]

/-! ### C5 -/

/-- C5 counterexample: the claim's hypothesis `0 ≤ start ≤ end ≤ len(text)`
admits a zero-width item, and the ranges `[5,5)` and `[5,8)` do not intersect,
yet at that input the splicing loop is order-dependent (the zero-width item's
offsets land inside the other item's already-inserted markup when it is
spliced second) and the result is not the canonical per-item wrapping. -/
theorem c5_counterexample_zero_width_item :
    ((5 : Nat) ≤ 5 ∧ (8 : Nat) ≤ ("abcdefgh".toList).length
      ∧ (5 : Nat) ≤ 8 ∧ (8 : Nat) ≤ ("abcdefgh".toList).length)
    ∧ itemOverlap ⟨5, 5, "A"⟩ ⟨5, 8, "B"⟩ = false
    ∧ bold_redacted_items [⟨5, 5, "A"⟩, ⟨5, 8, "B"⟩] "abcdefgh".toList
        ≠ bold_redacted_items [⟨5, 8, "B"⟩, ⟨5, 5, "A"⟩] "abcdefgh".toList
    ∧ bold_redacted_items [⟨5, 5, "A"⟩, ⟨5, 8, "B"⟩] "abcdefgh".toList
        ≠ wrapFrom "abcdefgh".toList 0
            (List.insertionSort itemAsc [⟨5, 5, "A"⟩, ⟨5, 8, "B"⟩]) := by
  decide

/-- C5 amended: restricted to items with `start < end` (nonempty spans — the
claim's bound `0 ≤ start ≤ end` otherwise admits zero-width items at a shared
start, where the splicing is order-dependent), processing in descending
`start` order never shifts the offsets of items not yet processed: the result
is the text with each item's substring wrapped in `'**'` markers (the
canonical ascending-order rendering), independent of the order of the items
in the input sequence. -/
theorem c5_amended_descending_splice_renders_wrapping
    (text : List Char) (items items' : List AnonymizedItem)
    (hperm : List.Perm items' items)
    (hb : ∀ it ∈ items, it.start < it.stop ∧ it.stop ≤ text.length)
    (hov : items.Pairwise fun a b => itemOverlap a b = false) :
    bold_redacted_items items text
        = wrapFrom text 0 (List.insertionSort itemAsc items)
    ∧ bold_redacted_items items' text = bold_redacted_items items text :=
  ⟨bold_eq_wrapFrom text items hb hov,
    bold_eq_of_perm text items items' hperm hb hov⟩

/-- Witness for the amended C5 on a concrete two-item text, exercising both
the canonical-wrapping equation and order-independence. -/
theorem c5_amended_descending_splice_renders_wrapping_witness :
    bold_redacted_items [⟨0, 5, "A"⟩, ⟨6, 11, "B"⟩] "hello world".toList
        = wrapFrom "hello world".toList 0
            (List.insertionSort itemAsc [⟨0, 5, "A"⟩, ⟨6, 11, "B"⟩])
    ∧ bold_redacted_items [⟨6, 11, "B"⟩, ⟨0, 5, "A"⟩] "hello world".toList
        = bold_redacted_items [⟨0, 5, "A"⟩, ⟨6, 11, "B"⟩] "hello world".toList :=
  c5_amended_descending_splice_renders_wrapping "hello world".toList
    [⟨0, 5, "A"⟩, ⟨6, 11, "B"⟩] [⟨6, 11, "B"⟩, ⟨0, 5, "A"⟩]
    (by decide) (by decide) (by decide)

/-! ### C9 -/

/-- C9: two touching items (the first item's `end` equal to the second's
`start`) render with exactly one `'**'` pair around each span — four
consecutive `'*'` at the shared boundary, no duplicated or malformed markup,
and no text duplicated or dropped. -/
theorem c9_touching_spans (text : List Char) (a b c : Nat) (t1 t2 : String)
    (hab : a < b) (hbc : b < c) (hc : c ≤ text.length) :
    bold_redacted_items [⟨a, b, t1⟩, ⟨b, c, t2⟩] text
      = text.take a ++ ('*' :: '*' :: sliceL text a b)
          ++ ('*' :: '*' :: '*' :: '*' :: sliceL text b c)
          ++ ('*' :: '*' :: text.drop c) := by
  have hov : ([⟨a, b, t1⟩, ⟨b, c, t2⟩] : List AnonymizedItem).Pairwise
      fun x y => itemOverlap x y = false := by
    refine List.pairwise_cons.mpr ⟨?_, List.pairwise_singleton _ _⟩
    intro y hy
    have hy' : y = ⟨b, c, t2⟩ := by simpa using hy
    subst hy'
    simp [itemOverlap, Nat.lt_irrefl]
  have hb' : ∀ it ∈ ([⟨a, b, t1⟩, ⟨b, c, t2⟩] : List AnonymizedItem),
      it.start < it.stop ∧ it.stop ≤ text.length := by
    intro it hit
    rcases (by simpa using hit : it = ⟨a, b, t1⟩ ∨ it = ⟨b, c, t2⟩) with h | h <;>
      subst h
    · exact ⟨hab, le_trans (le_of_lt hbc) hc⟩
    · exact ⟨hbc, hc⟩
  rw [bold_eq_wrapFrom text _ hb' hov]
  have hsort : List.insertionSort itemAsc [(⟨a, b, t1⟩ : AnonymizedItem), ⟨b, c, t2⟩]
      = [⟨a, b, t1⟩, ⟨b, c, t2⟩] := by
    show List.orderedInsert itemAsc ⟨a, b, t1⟩
      (List.orderedInsert itemAsc ⟨b, c, t2⟩ []) = _
    simp only [List.orderedInsert]
    rw [if_pos (show itemAsc ⟨a, b, t1⟩ ⟨b, c, t2⟩ from le_of_lt hab)]
  rw [hsort]
  simp [wrapFrom, sliceL, List.append_assoc]

/-- Witness for C9 on a concrete pair of touching items. -/
theorem c9_touching_spans_witness :
    bold_redacted_items [⟨1, 3, "A"⟩, ⟨3, 5, "B"⟩] "abcdef".toList
      = "abcdef".toList.take 1 ++ ('*' :: '*' :: sliceL "abcdef".toList 1 3)
          ++ ('*' :: '*' :: '*' :: '*' :: sliceL "abcdef".toList 3 5)
          ++ ('*' :: '*' :: "abcdef".toList.drop 5) :=
  c9_touching_spans "abcdef".toList 1 3 5 "A" "B" (by decide) (by decide) (by decide)

/-! ### C10 -/

/-- An in-bounds splice inserts exactly four characters. -/
theorem splice_length {l : List Char} {s e : Nat} (hse : s ≤ e) (he : e ≤ l.length) :
    (splice l s e).length = l.length + 4 := by
  simp [splice]
  omega

/-- The splicing loop adds exactly four characters per item, as long as every
item is in bounds of the original text (the accumulator only grows). -/
theorem foldl_splice_length (text : List Char) :
    ∀ (l : List AnonymizedItem) (cur : List Char),
      (∀ it ∈ l, it.start ≤ it.stop ∧ it.stop ≤ text.length) →
      text.length ≤ cur.length →
      (l.foldl (fun m it => splice m it.start it.stop) cur).length
        = cur.length + 4 * l.length := by
  intro l
  induction l with
  | nil => intro cur _ _; simp
  | cons it rest ih =>
    intro cur hb hlen
    have hit := hb it (List.mem_cons_self it rest)
    have hsp : (splice cur it.start it.stop).length = cur.length + 4 :=
      splice_length hit.1 (le_trans hit.2 hlen)
    show (rest.foldl (fun m it => splice m it.start it.stop)
      (splice cur it.start it.stop)).length = _
    rw [ih (splice cur it.start it.stop)
      (fun r hr => hb r (List.mem_cons_of_mem it hr)) (by omega), hsp]
    simp [List.length_cons]
    omega

/-- C10: on items with `0 ≤ start ≤ end ≤ len(text)` and pairwise
non-overlapping ranges, `bold_redacted_items` returns a text of length
`len(text) + 4 * len(items)`: each item inserts exactly four markup
characters and no input character is dropped. -/
theorem c10_length_accounting (text : List Char) (items : List AnonymizedItem)
    (hb : ∀ it ∈ items, it.start ≤ it.stop ∧ it.stop ≤ text.length)
    (_hov : items.Pairwise fun a b => itemOverlap a b = false) :
    (bold_redacted_items items text).length = text.length + 4 * items.length := by
  by_cases hemp : items.isEmpty = true
  · have : items = [] := List.isEmpty_iff.mp hemp
    subst this
    simp [bold_redacted_items]
  · have hDpm := List.perm_insertionSort itemDesc items
    have hbD : ∀ it ∈ List.insertionSort itemDesc items,
        it.start ≤ it.stop ∧ it.stop ≤ text.length :=
      fun it hit => hb it (hDpm.mem_iff.mp hit)
    show (if items.isEmpty = true then text
      else (List.insertionSort itemDesc items).foldl
        (fun m it => splice m it.start it.stop) text).length = _
    rw [if_neg hemp,
      foldl_splice_length text (List.insertionSort itemDesc items) text hbD (le_refl _),
      hDpm.length_eq]

/-- Witness for C10 on a concrete two-item text. -/
theorem c10_length_accounting_witness :
    (bold_redacted_items [⟨0, 2, "A"⟩, ⟨5, 8, "B"⟩] "abcdefgh".toList).length
      = ("abcdefgh".toList).length
        + 4 * ([⟨0, 2, "A"⟩, ⟨5, 8, "B"⟩] : List AnonymizedItem).length :=
  c10_length_accounting "abcdefgh".toList [⟨0, 2, "A"⟩, ⟨5, 8, "B"⟩]
    (by decide) (by decide)

/-- C6 amended: the total item count is a pure aggregation (it equals the
number of items across all files), and the per-file entity-type set reported
by the summary coincides with the cross-file union exactly in the single-file
case; in the multi-file case only per-file sets are reported. -/
theorem c6_amended_summary_aggregation :
    (∀ results : List (String × FileResult),
        totalItems results = ((results.map fun r => r.2.items).flatten).length)
    ∧ (∀ (n : String) (r : FileResult), allEntities [(n, r)] = fileEntities r) := by
  constructor
  · intro results
    rw [totalItems, List.length_flatten, List.map_map]
    rfl
  · intro n r
    simp [allEntities, fileEntities]

end Redaction
